import Mathlib

/-!
Shallow embedding of `src/multivae/models/gmc/gmc_model.py` (the GMC model:
validated construction, the encode/forward routing, and the InfoNCE loss
engine), together with theorems settling the specification claims.

Two layers are modelled:

* a dynamic-value layer (`PyVal`) for the construction checks and the
  encode/forward routing, where tensors are opaque shape-carrying values and
  encoders are opaque callables (pythae encoders return a `ModelOutput`
  object whose `embedding` attribute holds their result);
* a real-valued layer (`Mat` over `ℝ`) for the `infonce` loss engine, which
  mirrors the torch tensor pipeline operation by operation.

The source raises `AttributeError` for every construction-time check and for
the unknown-`cond_mod` branch of `encode`, and an `assert` for the
modality-count check; the specification names the construction-time failures
`ConfigurationError` and the encode-time failure `InvalidModalityError`.
The error model below follows that taxonomy: all construction failures are
`configurationError`, the encode failure is `invalidModalityError`, and a
missing key in the `ModuleDict` lookup of `forward` is the untyped
`keyError`.
-/

namespace GMCModel

/-- Dynamic values of the routing layer: an opaque tensor carrying only its
shape, a Python dict keyed by modality name (as `inputs.data` is), a pythae
`ModelOutput` wrapper whose `embedding` attribute holds a value, and a
placeholder for attribute access on a value that has no `embedding`. -/
inductive PyVal where
  | tensor (shape : List Nat)
  | dict (entries : List (String × PyVal))
  | modelOutput (embedding : PyVal)
  | pyNone
deriving Repr

/-- Attribute access `v.embedding` on a `ModelOutput`. -/
def PyVal.embedding : PyVal → PyVal
  | .modelOutput e => e
  | _ => .pyNone

/-- Whether a dynamic value is a bare tensor (and not, e.g., a `ModelOutput`
wrapper around one). -/
def PyVal.isTensor : PyVal → Bool
  | .tensor _ => true
  | _ => false

/-- A pythae `BaseEncoder` instance: a declared output dimensionality
(`latent_dim` attribute) and an opaque callable returning a `ModelOutput`. -/
structure BaseEncoder where
  latent_dim : Nat
  apply : PyVal → PyVal

/-- A multivae `BaseJointEncoder` instance: same surface as `BaseEncoder`,
kept as a distinct type because the source distinguishes the two classes by
`isinstance` checks (modelled here by typing). -/
structure BaseJointEncoder where
  latent_dim : Nat
  apply : PyVal → PyVal

/-- `GMCConfig`: the configuration dataclass consumed by `GMC.__init__`. -/
structure GMCConfig where
  n_modalities : Nat
  embedding_dim : Nat
  common_dim : Nat
  temperature : Rat
  use_all_singular_values : Bool

/-- Errors of the model, following the taxonomy of the specification:
`configurationError` for every construction-time failure (the source raises
`AttributeError`, and an `AssertionError` for the modality-count check),
`invalidModalityError` for the unknown-`cond_mod` branch of `encode`
(an `AttributeError` in the source), and `keyError` for a missing key in
the `ModuleDict` indexing of `forward` (an untyped `KeyError`). -/
inductive GMCError where
  | configurationError
  | invalidModalityError
  | keyError (key : String)
deriving Repr, DecidableEq

/-- The element loop of `GMC.set_networks`: for each modality, the
`isinstance(networks[m], BaseEncoder)` check (always true here by typing),
then the check `networks[m].latent_dim != self.common_dim`, raising on the
first offender; the surviving bindings are stored in order. -/
def checkProcessors (common_dim : Nat) :
    List (String × BaseEncoder) → Except GMCError (List (String × BaseEncoder))
  | [] => .ok []
  | (m, e) :: rest =>
    if e.latent_dim ≠ common_dim then
      .error .configurationError
    else do
      let r ← checkProcessors common_dim rest
      .ok ((m, e) :: r)

/-- `GMC.set_networks`: asserts that the number of provided processors
equals `n_modalities`, then runs the per-modality checks. -/
def set_networks (n_modalities common_dim : Nat)
    (networks : List (String × BaseEncoder)) :
    Except GMCError (List (String × BaseEncoder)) :=
  if networks.length ≠ n_modalities then .error .configurationError
  else checkProcessors common_dim networks

/-- `GMC.set_shared_encoder`: the `isinstance` check (by typing), then
raise when `shared_encoder.latent_dim != self.latent_dim`. -/
def set_shared_encoder (latent_dim : Nat) (shared_encoder : BaseEncoder) :
    Except GMCError BaseEncoder :=
  if shared_encoder.latent_dim ≠ latent_dim then .error .configurationError
  else .ok shared_encoder

/-- `GMC.set_joint_encoder`: the `isinstance` check (by typing), then the
condition exactly as written in the source:
`if not joint_encoder.latent_dim != self.common_dim: raise ...`
(note the `not`: the source raises when the two dimensions are EQUAL). -/
def set_joint_encoder (common_dim : Nat) (joint_encoder : BaseJointEncoder) :
    Except GMCError BaseJointEncoder :=
  if ¬ joint_encoder.latent_dim ≠ common_dim then .error .configurationError
  else .ok joint_encoder

/-- The constructed model: the validated bindings stored by `GMC.__init__`
(`self.latent_dim = config.embedding_dim`). -/
structure GMC where
  config : GMCConfig
  networks : List (String × BaseEncoder)
  joint_encoder : BaseJointEncoder
  shared_encoder : BaseEncoder

/-- `GMC.__init__`: copies the configuration scalars, then runs
`set_networks`, `set_joint_encoder`, `set_shared_encoder` in that order,
storing the validated bindings; the first failing check aborts
construction. -/
def GMC.init (config : GMCConfig) (processors : List (String × BaseEncoder))
    (joint_encoder : BaseJointEncoder) (shared_encoder : BaseEncoder) :
    Except GMCError GMC := do
  let nets ← set_networks config.n_modalities config.common_dim processors
  let je ← set_joint_encoder config.common_dim joint_encoder
  let se ← set_shared_encoder config.embedding_dim shared_encoder
  .ok { config := config, networks := nets, joint_encoder := je,
        shared_encoder := se }

/-- A `MultimodalBaseDataset` batch: iteration yields the present modality
names, and `inputs.data` maps each modality name to its raw tensor. -/
structure MultimodalBaseDataset where
  data : List (String × PyVal)

/-- `GMC.encode`, exactly as in the source: for `cond_mod == 'all'`,
`z = self.shared_encoder(self.joint_encoder(inputs.data).embedding)`;
for a registered modality,
`z = self.shared_encoder(self.networks[cond_mod](inputs.data).embedding)`
(the source passes the full `inputs.data` mapping to the modality encoder,
and `z` is the `ModelOutput` returned by the shared encoder, with no
trailing `.embedding`); otherwise raise; finally
`return ModelOutput(embedding = z)`. -/
def GMC.encode (model : GMC) (inputs : MultimodalBaseDataset)
    (cond_mod : String) : Except GMCError PyVal :=
  if cond_mod = "all" then
    .ok (.modelOutput (model.shared_encoder.apply
      ((model.joint_encoder.apply (.dict inputs.data)).embedding)))
  else
    match model.networks.lookup cond_mod with
    | some net =>
        .ok (.modelOutput (model.shared_encoder.apply
          ((net.apply (.dict inputs.data)).embedding)))
    | none => .error .invalidModalityError

/-- Indexing `self.networks[m]` on the `ModuleDict`: a missing key raises
an untyped `KeyError`. -/
def lookupModule (networks : List (String × BaseEncoder)) (m : String) :
    Except GMCError BaseEncoder :=
  match networks.lookup m with
  | some e => .ok e
  | none => .error (.keyError m)

/-- The modality loop of `GMC.forward`: for each modality `m` of the batch,
`h = self.networks[m](inputs.data[m]).embedding` and
`z = self.shared_encoder(h).embedding`, collected in iteration order; the
first missing key aborts with its `KeyError`. -/
def computeModalitiesZ (model : GMC) :
    List (String × PyVal) → Except GMCError (List (String × PyVal))
  | [] => .ok []
  | (m, x) :: rest => do
    let net ← lookupModule model.networks m
    let h := (net.apply x).embedding
    let z := (model.shared_encoder.apply h).embedding
    let r ← computeModalitiesZ model rest
    .ok ((m, z) :: r)

/-- `GMC.forward`, parametric in the loss engine: computes every
modality-specific representation, then the joint representation
(`joint_h = self.joint_encoder(inputs.data).embedding`,
`joint_z = self.shared_encoder(joint_h).embedding`), and only then invokes
the loss on them. The loss engine is passed as the function argument
`infonceF` so that theorems can state that the error path is reached before
and independently of any loss computation. -/
def GMC.forwardWith (model : GMC) (inputs : MultimodalBaseDataset)
    (infonceF : List (String × PyVal) → PyVal → PyVal) :
    Except GMCError PyVal := do
  let modalities_z ← computeModalitiesZ model inputs.data
  let joint_h := (model.joint_encoder.apply (.dict inputs.data)).embedding
  let joint_z := (model.shared_encoder.apply joint_h).embedding
  .ok (infonceF modalities_z joint_z)

/-! The real-valued layer: the `infonce` loss engine over matrices
represented as lists of rows of reals, mirroring the torch pipeline. -/

/-- A 2D tensor as a list of rows. -/
abbrev Mat := List (List ℝ)

/-- Row-by-row dot product, as computed by a row of
`torch.mm(out, out.t())` or by `torch.sum(a * b, dim=-1)`. -/
def dotL (x y : List ℝ) : ℝ :=
  (List.zipWith (fun a b => a * b) x y).sum

/-- The full pairwise similarity matrix
`torch.exp(torch.mm(out, out.t().contiguous()) / self.temperature)`:
entry (i, j) is `exp(dot(out[i], out[j]) / temperature)`. -/
noncomputable def simMatrix (temperature : ℝ) (out : Mat) : Mat :=
  out.map fun r => out.map fun s => Real.exp (dotL r s / temperature)

/-- Helper for the diagonal mask: row `i + n` of the result is row `i + n`
of the input with its entry at column `i + n` removed. -/
def removeDiagAux : Nat → Mat → Mat
  | _, [] => []
  | i, row :: rest => row.eraseIdx i :: removeDiagAux (i + 1) rest

/-- The diagonal mask of the source:
`masked_select` with the boolean mask `ones_like(sim) - eye(2B)` keeps, in
row-major order, every entry except the (i, i) ones, and `view(2B, -1)`
regroups them into rows; for the square similarity matrix each row loses
exactly its diagonal entry, so the result is row `i` with its `i`-th entry
removed. -/
def removeDiag (S : Mat) : Mat := removeDiagAux 0 S

/-- The positive-pair similarities
`torch.exp(torch.sum(joint_z * modalities_z[mod], dim=-1) / temperature)`:
entry `i` is `exp(dot(joint_z[i], z_mod[i]) / temperature)`. -/
noncomputable def posSim (temperature : ℝ) (joint_z z_mod : Mat) : List ℝ :=
  List.zipWith (fun j z => Real.exp (dotL j z / temperature)) joint_z z_mod

/-- The per-modality 2B-length loss vector of the source loop body:
concatenate `joint_z` and `modalities_z[mod]`, build the masked similarity
matrix, duplicate the positive-pair vector
(`torch.cat([pos, pos], dim=0)`), and take
`-log(pos / sim_matrix.sum(dim=-1))` elementwise. -/
noncomputable def lossJointMod (temperature : ℝ) (joint_z z_mod : Mat) :
    List ℝ :=
  List.zipWith (fun p s => -Real.log (p / s))
    (posSim temperature joint_z z_mod ++ posSim temperature joint_z z_mod)
    ((removeDiag (simMatrix temperature (joint_z ++ z_mod))).map List.sum)

/-- The accumulation `joint_mod_loss_sum += loss_joint_mod` over the
modalities of `modalities_z`, in iteration order. The source initialises
the accumulator with the scalar `0`, which broadcasts to the zero vector of
length `2 * batch_size` (`batch_size = len(joint_z)`) at the first
addition; it is modelled as that zero vector. -/
noncomputable def accumLoss (temperature : ℝ) (modalities_z : List (String × Mat))
    (joint_z : Mat) : List ℝ :=
  modalities_z.foldl
    (fun acc p => List.zipWith (fun a b => a + b) acc
      (lossJointMod temperature joint_z p.2))
    (List.replicate (2 * joint_z.length) 0)

/-- `torch.mean` of a 1D tensor: the sum of its entries divided by its
length. -/
noncomputable def meanL (v : List ℝ) : ℝ := v.sum / (v.length : ℝ)

/-- `GMC.infonce`: the accumulated loss vector reduced by `torch.mean`. -/
noncomputable def infonce (temperature : ℝ)
    (modalities_z : List (String × Mat)) (joint_z : Mat) : ℝ :=
  meanL (accumLoss temperature modalities_z joint_z)

/-! Concrete fixtures used to evaluate the routing paths on explicit
inputs. -/

/-- An identity-like recording encoder of declared dimension d: its
ModelOutput embedding is exactly the argument it was called on, so a
theorem can observe which value a call path passed to it. -/
def recordEncoder (d : Nat) : BaseEncoder :=
  { latent_dim := d, apply := fun v => .modelOutput v }

/-- The joint-encoder variant of the recording encoder. -/
def recordJointEncoder (d : Nat) : BaseJointEncoder :=
  { latent_dim := d, apply := fun v => .modelOutput v }

/-- A configuration with one modality, embedding_dim (latent_dim) 2 and
common_dim 4, consistent with the fixture encoders. -/
def cfgFix : GMCConfig :=
  { n_modalities := 1, embedding_dim := 2, common_dim := 4,
    temperature := 1, use_all_singular_values := false }

/-- A dimension-consistent model assembled directly from validated
bindings, used to exercise the encode and forward paths. -/
def modelFix : GMC :=
  { config := cfgFix
  , networks := [("m0", recordEncoder 4)]
  , joint_encoder := recordJointEncoder 4
  , shared_encoder := recordEncoder 2 }

/-- A batch holding one modality tensor of shape (2, 3) under the
registered name m0. -/
def inputsFix : MultimodalBaseDataset := ⟨[("m0", .tensor [2, 3])]⟩

/-- A batch holding one modality tensor under the name b, which is not
registered in modelFix. -/
def inputsMissing : MultimodalBaseDataset := ⟨[("b", .tensor [2, 3])]⟩

/-- A joint encoder whose ModelOutput holds a (2, 4) tensor: batch size 2,
common_dim 4. -/
def jointShapeEnc : BaseJointEncoder :=
  { latent_dim := 4, apply := fun _ => .modelOutput (.tensor [2, 4]) }

/-- A shared projection head whose ModelOutput holds a (2, 5) tensor:
batch size 2, latent_dim 5. -/
def sharedShapeEnc : BaseEncoder :=
  { latent_dim := 5, apply := fun _ => .modelOutput (.tensor [2, 5]) }

/-- A model with shape-producing joint and shared encoders
(embedding_dim 5, common_dim 4). -/
def modelShape : GMC :=
  { config := { n_modalities := 1, embedding_dim := 5, common_dim := 4,
                temperature := 1, use_all_singular_values := false }
  , networks := [("m0", recordEncoder 4)]
  , joint_encoder := jointShapeEnc
  , shared_encoder := sharedShapeEnc }

/-! Helper lemmas about the list operations of the loss engine. -/

theorem removeDiagAux_length (S : Mat) : ∀ n : Nat, (removeDiagAux n S).length = S.length := by
  induction S with
  | nil => intro n; rfl
  | cons row rest ih => intro n; simp [removeDiagAux, ih]

theorem removeDiag_length (S : Mat) : (removeDiag S).length = S.length :=
  removeDiagAux_length S 0

theorem removeDiagAux_getD (S : Mat) : ∀ (n i : Nat), i < S.length →
    (removeDiagAux n S).getD i [] = (S.getD i []).eraseIdx (n + i) := by
  induction S with
  | nil => intro n i h; simp at h
  | cons row rest ih =>
    intro n i h
    cases i with
    | zero => simp [removeDiagAux]
    | succ j =>
      have hj : j < rest.length := by simpa using Nat.lt_of_succ_lt_succ h
      have h2 := ih (n + 1) j hj
      simp only [removeDiagAux, List.getD_cons_succ]
      rw [h2]
      congr 1
      omega

theorem removeDiag_getD (S : Mat) (i : Nat) (h : i < S.length) :
    (removeDiag S).getD i [] = (S.getD i []).eraseIdx i := by
  simpa using removeDiagAux_getD S 0 i h

theorem sum_eraseIdx_getD (l : List ℝ) : ∀ i : Nat, i < l.length →
    (l.eraseIdx i).sum = l.sum - l.getD i 0 := by
  induction l with
  | nil => intro i h; simp at h
  | cons a t ih =>
    intro i h
    cases i with
    | zero => simp [List.eraseIdx]
    | succ j =>
      have hj : j < t.length := Nat.lt_of_succ_lt_succ h
      simp [List.eraseIdx, ih j hj]
      ring

theorem getD_lt_sum (l : List ℝ) (i : Nat) (h : i < l.length)
    (hpos : ∀ x ∈ l, 0 < x) (hlen : 2 ≤ l.length) : l.getD i 0 < l.sum := by
  have herase : (l.eraseIdx i).sum = l.sum - l.getD i 0 := sum_eraseIdx_getD l i h
  have hne : l.eraseIdx i ≠ [] := by
    have : (l.eraseIdx i).length = l.length - 1 := by
      rw [List.length_eraseIdx]; simp [h]
    intro hcon
    rw [hcon] at this
    simp at this
    omega
  have hposE : ∀ x ∈ l.eraseIdx i, 0 < x := fun x hx =>
    hpos x ((List.eraseIdx_sublist l i).subset hx)
  have := List.sum_pos (l.eraseIdx i) hposE hne
  linarith [herase ▸ this]

theorem simMatrix_length (τ : ℝ) (out : Mat) :
    (simMatrix τ out).length = out.length := by
  simp [simMatrix]

theorem simMatrix_getD (τ : ℝ) (out : Mat) (i : Nat) (h : i < out.length) :
    (simMatrix τ out).getD i [] =
      out.map (fun s => Real.exp (dotL (out.getD i []) s / τ)) := by
  have h2 : i < (simMatrix τ out).length := by
    simpa [simMatrix_length] using h
  rw [List.getD_eq_getElem _ _ h2, List.getD_eq_getElem _ _ h]
  simp [simMatrix]

theorem posSim_length (τ : ℝ) (J Z : Mat) :
    (posSim τ J Z).length = min J.length Z.length := by
  simp [posSim]

theorem posSim_getD (τ : ℝ) (J Z : Mat) (i : Nat) (hi : i < J.length)
    (hz : i < Z.length) :
    (posSim τ J Z).getD i 0 = Real.exp (dotL (J.getD i []) (Z.getD i []) / τ) := by
  have h2 : i < (posSim τ J Z).length := by
    simp [posSim_length]; omega
  rw [List.getD_eq_getElem _ _ h2, List.getD_eq_getElem _ _ hi,
    List.getD_eq_getElem _ _ hz]
  simp [posSim]

theorem lossJointMod_length (τ : ℝ) (J Z : Mat) (B : Nat)
    (hJ : J.length = B) (hZ : Z.length = B) :
    (lossJointMod τ J Z).length = 2 * B := by
  simp [lossJointMod, posSim_length, removeDiag_length, simMatrix_length, hJ, hZ]
  omega

theorem lossJointMod_getD (τ : ℝ) (J Z : Mat) (B : Nat)
    (hJ : J.length = B) (hZ : Z.length = B) (i : Nat) (hi : i < 2 * B) :
    (lossJointMod τ J Z).getD i 0 =
      -Real.log (((posSim τ J Z ++ posSim τ J Z).getD i 0) /
        ((removeDiag (simMatrix τ (J ++ Z))).getD i []).sum) := by
  have hlen : (lossJointMod τ J Z).length = 2 * B :=
    lossJointMod_length τ J Z B hJ hZ
  have hi1 : i < (lossJointMod τ J Z).length := by omega
  have hpos2 : i < (posSim τ J Z ++ posSim τ J Z).length := by
    simp [posSim_length, hJ, hZ]; omega
  have hrd : i < (removeDiag (simMatrix τ (J ++ Z))).length := by
    simp [removeDiag_length, simMatrix_length, hJ, hZ]; omega
  have hmap : i < ((removeDiag (simMatrix τ (J ++ Z))).map List.sum).length := by
    simpa using hrd
  rw [List.getD_eq_getElem _ _ hi1, List.getD_eq_getElem _ _ hpos2,
    List.getD_eq_getElem _ _ hrd]
  simp only [lossJointMod, List.getElem_zipWith, List.getElem_map]

theorem foldlAdd_length (τ : ℝ) (J : Mat) (B : Nat) (hJ : J.length = B) :
    ∀ (mods : List (String × Mat)) (acc : List ℝ), acc.length = 2 * B →
      (∀ p ∈ mods, (p.2).length = B) →
      (mods.foldl (fun acc p => List.zipWith (fun a b => a + b) acc
        (lossJointMod τ J p.2)) acc).length = 2 * B := by
  intro mods
  induction mods with
  | nil => intro acc ha _; simpa using ha
  | cons p rest ih =>
    intro acc ha hmods
    simp only [List.foldl_cons]
    apply ih
    · rw [List.length_zipWith, ha,
        lossJointMod_length τ J p.2 B hJ (hmods p (by simp))]
      simp
    · intro q hq; exact hmods q (by simp [hq])

theorem foldlAdd_getD (τ : ℝ) (J : Mat) (B : Nat) (hJ : J.length = B) :
    ∀ (mods : List (String × Mat)) (acc : List ℝ), acc.length = 2 * B →
      (∀ p ∈ mods, (p.2).length = B) → ∀ i, i < 2 * B →
      (mods.foldl (fun acc p => List.zipWith (fun a b => a + b) acc
        (lossJointMod τ J p.2)) acc).getD i 0 =
        acc.getD i 0 +
          (mods.map (fun p => (lossJointMod τ J p.2).getD i 0)).sum := by
  intro mods
  induction mods with
  | nil => intro acc _ _ i _; simp
  | cons p rest ih =>
    intro acc ha hmods i hi
    have hL : (lossJointMod τ J p.2).length = 2 * B :=
      lossJointMod_length τ J p.2 B hJ (hmods p (by simp))
    have haz : (List.zipWith (fun a b => a + b) acc
        (lossJointMod τ J p.2)).length = 2 * B := by
      rw [List.length_zipWith, ha, hL]; simp
    have step := ih (List.zipWith (fun a b => a + b) acc (lossJointMod τ J p.2))
      haz (fun q hq => hmods q (by simp [hq])) i hi
    have hzg : (List.zipWith (fun a b => a + b) acc
        (lossJointMod τ J p.2)).getD i 0 =
        acc.getD i 0 + (lossJointMod τ J p.2).getD i 0 := by
      have h1 : i < acc.length := by omega
      have h2 : i < (lossJointMod τ J p.2).length := by omega
      have h3 : i < (List.zipWith (fun a b => a + b) acc
          (lossJointMod τ J p.2)).length := by omega
      rw [List.getD_eq_getElem _ _ h3, List.getD_eq_getElem _ _ h1,
        List.getD_eq_getElem _ _ h2]
      simp [List.getElem_zipWith]
    simp only [List.foldl_cons]
    rw [step, hzg, List.map_cons, List.sum_cons]
    ring

theorem accumLoss_length (τ : ℝ) (mods : List (String × Mat)) (J : Mat)
    (B : Nat) (hJ : J.length = B) (hmods : ∀ p ∈ mods, (p.2).length = B) :
    (accumLoss τ mods J).length = 2 * B := by
  unfold accumLoss
  exact foldlAdd_length τ J B hJ mods _ (by simp [hJ]) hmods

theorem accumLoss_getD (τ : ℝ) (mods : List (String × Mat)) (J : Mat)
    (B : Nat) (hJ : J.length = B) (hmods : ∀ p ∈ mods, (p.2).length = B)
    (i : Nat) (hi : i < 2 * B) :
    (accumLoss τ mods J).getD i 0 =
      (mods.map (fun p => (lossJointMod τ J p.2).getD i 0)).sum := by
  unfold accumLoss
  rw [foldlAdd_getD τ J B hJ mods _ (by simp [hJ]) hmods i hi]
  simp

theorem getD_append_of_lt {α : Type} (a b : List α) (d : α) (i : Nat)
    (h : i < a.length) : (a ++ b).getD i d = a.getD i d := by
  have h2 : i < (a ++ b).length := by simp; omega
  rw [List.getD_eq_getElem _ _ h2, List.getD_eq_getElem _ _ h]
  exact List.getElem_append_left h

theorem getD_append_of_le {α : Type} (a b : List α) (d : α) (i : Nat)
    (h1 : a.length ≤ i) (h2 : i < a.length + b.length) :
    (a ++ b).getD i d = b.getD (i - a.length) d := by
  have h3 : i < (a ++ b).length := by simp; omega
  have h4 : i - a.length < b.length := by omega
  rw [List.getD_eq_getElem _ _ h3, List.getD_eq_getElem _ _ h4]
  exact List.getElem_append_right h1

theorem simMatrix_row_length (τ : ℝ) (out : Mat) (i : Nat)
    (h : i < out.length) :
    ((simMatrix τ out).getD i []).length = out.length := by
  rw [simMatrix_getD τ out i h]
  simp

theorem simMatrix_row_pos (τ : ℝ) (out : Mat) (i : Nat) (h : i < out.length) :
    ∀ x ∈ (simMatrix τ out).getD i [], 0 < x := by
  rw [simMatrix_getD τ out i h]
  intro x hx
  simp only [List.mem_map] at hx
  obtain ⟨s, _, rfl⟩ := hx
  exact Real.exp_pos _

theorem simMatrix_row_getD (τ : ℝ) (out : Mat) (i j : Nat)
    (hi : i < out.length) (hj : j < out.length) :
    ((simMatrix τ out).getD i []).getD j 0 =
      Real.exp (dotL (out.getD i []) (out.getD j []) / τ) := by
  rw [simMatrix_getD τ out i hi]
  have hj2 : j < (out.map
      (fun s => Real.exp (dotL (out.getD i []) s / τ))).length := by
    simpa using hj
  rw [List.getD_eq_getElem _ _ hj2, List.getD_eq_getElem _ _ hj]
  simp

theorem removeDiag_row_mem (S : Mat) (r : List ℝ) (hr : r ∈ removeDiag S) :
    ∃ i, i < S.length ∧ r = (S.getD i []).eraseIdx i := by
  rw [List.mem_iff_getElem] at hr
  obtain ⟨i, hi, hget⟩ := hr
  have hi2 : i < S.length := by rwa [removeDiag_length] at hi
  refine ⟨i, hi2, ?_⟩
  rw [← hget, ← List.getD_eq_getElem _ [] hi, removeDiag_getD S i hi2]

theorem masked_row_sum_gt (τ : ℝ) (J : Mat) (B : Nat) (hJ : J.length = B)
    (hB : 2 ≤ B) (i i2 : Nat) (hi : i < 2 * B) (hi2 : i2 < B)
    (hout : (J ++ J).getD i [] = J.getD i2 []) :
    Real.exp (dotL (J.getD i2 []) (J.getD i2 []) / τ) <
      ((removeDiag (simMatrix τ (J ++ J))).getD i []).sum := by
  have houtlen : (J ++ J).length = 2 * B := by simp [hJ]; ring
  have hiout : i < (J ++ J).length := by omega
  set g := fun s => Real.exp (dotL (J.getD i2 []) s / τ) with hg
  have hrow : (simMatrix τ (J ++ J)).getD i [] = (J ++ J).map g := by
    rw [simMatrix_getD τ (J ++ J) i hiout, hout]
  have hrowsum : ((J ++ J).map g).sum = 2 * (J.map g).sum := by
    rw [List.map_append, List.sum_append]; ring
  have hd : ((simMatrix τ (J ++ J)).getD i []).getD i 0 = g (J.getD i2 []) := by
    rw [simMatrix_row_getD τ (J ++ J) i i hiout hiout, hout]
  have hmasked : ((removeDiag (simMatrix τ (J ++ J))).getD i []).sum =
      ((simMatrix τ (J ++ J)).getD i []).sum -
        ((simMatrix τ (J ++ J)).getD i []).getD i 0 := by
    rw [removeDiag_getD _ i (by rwa [simMatrix_length])]
    exact sum_eraseIdx_getD _ i
      (by rw [simMatrix_row_length τ _ i hiout]; omega)
  have hmem : (J.map g).getD i2 0 = g (J.getD i2 []) := by
    have h1 : i2 < (J.map g).length := by simp [hJ]; omega
    rw [List.getD_eq_getElem _ _ h1,
      List.getD_eq_getElem _ _ (by omega : i2 < J.length)]
    simp
  have hposall : ∀ x ∈ J.map g, 0 < x := by
    intro x hx
    simp only [List.mem_map] at hx
    obtain ⟨s, _, rfl⟩ := hx
    exact Real.exp_pos _
  have hlt : (J.map g).getD i2 0 < (J.map g).sum :=
    getD_lt_sum (J.map g) i2 (by simp [hJ]; omega) hposall
      (by simp [hJ]; omega)
  have hgid : g (J.getD i2 []) =
      Real.exp (dotL (J.getD i2 []) (J.getD i2 []) / τ) := rfl
  rw [hmasked, hd, hrow, hrowsum]
  rw [hmem] at hlt
  have hdpos : 0 < g (J.getD i2 []) := Real.exp_pos _
  rw [← hgid]
  linarith

theorem lossJointMod_self_pos (τ : ℝ) (J : Mat) (B : Nat)
    (hJ : J.length = B) (hB : 2 ≤ B) (i : Nat) (hi : i < 2 * B) :
    0 < (lossJointMod τ J J).getD i 0 := by
  have key : ∃ i2, i2 < B ∧ (J ++ J).getD i [] = J.getD i2 [] ∧
      (posSim τ J J ++ posSim τ J J).getD i 0 =
        Real.exp (dotL (J.getD i2 []) (J.getD i2 []) / τ) := by
    have hlen : (posSim τ J J).length = B := by simp [posSim_length, hJ]
    by_cases h : i < B
    · refine ⟨i, h, ?_, ?_⟩
      · exact getD_append_of_lt J J [] i (by omega)
      · rw [getD_append_of_lt _ _ 0 i (by rw [hlen]; omega)]
        exact posSim_getD τ J J i (by omega) (by omega)
    · refine ⟨i - B, by omega, ?_, ?_⟩
      · have h2 := getD_append_of_le J J [] i (by omega) (by omega)
        simpa [hJ] using h2
      · have h1 : (posSim τ J J).length ≤ i := by rw [hlen]; omega
        have h2 : i < (posSim τ J J).length + (posSim τ J J).length := by
          rw [hlen]; omega
        rw [getD_append_of_le _ _ 0 i h1 h2, hlen]
        exact posSim_getD τ J J (i - B) (by omega) (by omega)
  obtain ⟨i2, hi2, hout, hpos⟩ := key
  have hlt := masked_row_sum_gt τ J B hJ hB i i2 hi hi2 hout
  have hdpos : 0 < Real.exp (dotL (J.getD i2 []) (J.getD i2 []) / τ) :=
    Real.exp_pos _
  have hmpos : 0 < ((removeDiag (simMatrix τ (J ++ J))).getD i []).sum :=
    lt_trans hdpos hlt
  rw [lossJointMod_getD τ J J B hJ hJ i hi, hpos]
  have hratio0 : 0 < Real.exp (dotL (J.getD i2 []) (J.getD i2 []) / τ) /
      ((removeDiag (simMatrix τ (J ++ J))).getD i []).sum :=
    div_pos hdpos hmpos
  have hratio1 : Real.exp (dotL (J.getD i2 []) (J.getD i2 []) / τ) /
      ((removeDiag (simMatrix τ (J ++ J))).getD i []).sum < 1 :=
    (div_lt_one hmpos).2 hlt
  have hlog := Real.log_neg hratio0 hratio1
  linarith

/-- Claim C7: inside infonce, for every modality and every batch size
B ≥ 1, the diagonally-masked similarity matrix has 2B rows of 2B − 1
entries each, and every row's summed softmax denominator equals the full
pre-mask row sum minus that row's diagonal entry
exp(dot(out[i], out[i]) / temperature) — so no diagonal entry of the
pre-mask matrix contributes to any denominator. -/
theorem masked_similarity_shape_and_diagonal_exclusion (τ : ℝ)
    (joint_z z_mod : Mat) (B : Nat) (hB : 1 ≤ B) (hJ : joint_z.length = B)
    (hZ : z_mod.length = B) :
    (removeDiag (simMatrix τ (joint_z ++ z_mod))).length = 2 * B ∧
    (∀ r ∈ removeDiag (simMatrix τ (joint_z ++ z_mod)),
      r.length = 2 * B - 1) ∧
    (∀ i, i < 2 * B →
      ((removeDiag (simMatrix τ (joint_z ++ z_mod))).getD i []).sum =
        ((simMatrix τ (joint_z ++ z_mod)).getD i []).sum -
          ((simMatrix τ (joint_z ++ z_mod)).getD i []).getD i 0) := by
  have hout : (joint_z ++ z_mod).length = 2 * B := by simp [hJ, hZ]; ring
  have hS : (simMatrix τ (joint_z ++ z_mod)).length = 2 * B := by
    rw [simMatrix_length]; exact hout
  refine ⟨by rw [removeDiag_length]; exact hS, ?_, ?_⟩
  · intro r hr
    obtain ⟨i, hiS, rfl⟩ := removeDiag_row_mem _ r hr
    have hiout : i < (joint_z ++ z_mod).length := by omega
    have hrl : ((simMatrix τ (joint_z ++ z_mod)).getD i []).length = 2 * B := by
      rw [simMatrix_row_length τ _ i hiout, hout]
    rw [List.length_eraseIdx, hrl, if_pos (by omega : i < 2 * B)]
  · intro i hi
    rw [removeDiag_getD _ i (by omega)]
    exact sum_eraseIdx_getD _ i
      (by rw [simMatrix_row_length τ _ i (by omega), hout]; omega)

/-- Claim C8: for every batch size B ≥ 1 and every modality count
n ≥ 1, the accumulated loss vector has length 2·B, and infonce reduces it
with torch.mean to one scalar real number (the codomain of meanL is ℝ: no
tensor dimension remains): the sum of the accumulated entries divided by
2·B, independent of the number of modalities. -/
theorem infonce_returns_scalar (τ : ℝ) (mods : List (String × Mat))
    (joint_z : Mat) (B : Nat) (hB : 1 ≤ B) (hJ : joint_z.length = B)
    (hn : 1 ≤ mods.length) (hmods : ∀ p ∈ mods, (p.2).length = B) :
    (accumLoss τ mods joint_z).length = 2 * B ∧
    infonce τ mods joint_z =
      (accumLoss τ mods joint_z).sum / ((2 * B : Nat) : ℝ) := by
  have hlen := accumLoss_length τ mods joint_z B hJ hmods
  refine ⟨hlen, ?_⟩
  rw [infonce, meanL, hlen]

/-- Claim C3 (amended): infonce accumulates the per-modality 2B-length
per-row loss vectors by elementwise sum, and returns the mean over the 2B
elements of the accumulated vector — the grand sum of the accumulated
per-row losses divided by 2·B, not by 2·B·n_modalities. -/
theorem infonce_accumulates_and_averages_over_2B (τ : ℝ)
    (mods : List (String × Mat)) (joint_z : Mat) (B : Nat) (hB : 1 ≤ B)
    (hJ : joint_z.length = B) (hn : 1 ≤ mods.length)
    (hmods : ∀ p ∈ mods, (p.2).length = B) :
    (∀ i, i < 2 * B → (accumLoss τ mods joint_z).getD i 0 =
      (mods.map (fun p => (lossJointMod τ joint_z p.2).getD i 0)).sum) ∧
    infonce τ mods joint_z =
      (accumLoss τ mods joint_z).sum / ((2 * B : Nat) : ℝ) := by
  refine ⟨fun i hi => accumLoss_getD τ mods joint_z B hJ hmods i hi, ?_⟩
  rw [infonce, meanL, accumLoss_length τ mods joint_z B hJ hmods]

/-- Claim C9: for every batch of size B ≥ 2 in which every modality
embedding matrix equals the joint embedding matrix and the temperature is
positive, every masked-row softmax denominator is strictly positive (the
loss is a well-defined real: no division by zero and no logarithm of a
non-positive number occurs) and the loss returned by infonce is strictly
positive — never zero — because each denominator still contains the other
batch members and strictly exceeds the positive-pair similarity. -/
theorem infonce_positive_on_identical_embeddings (τ : ℝ)
    (mods : List (String × Mat)) (J : Mat) (B : Nat) (hτ : 0 < τ)
    (hJ : J.length = B) (hB : 2 ≤ B) (hne : mods ≠ [])
    (hmods : ∀ p ∈ mods, p.2 = J) :
    (∀ r ∈ removeDiag (simMatrix τ (J ++ J)), 0 < r.sum) ∧
    0 < infonce τ mods J := by
  have houtlen : (J ++ J).length = 2 * B := by simp [hJ]; ring
  constructor
  · intro r hr
    obtain ⟨i, hiS, rfl⟩ := removeDiag_row_mem _ r hr
    have hSlen : (simMatrix τ (J ++ J)).length = (J ++ J).length :=
      simMatrix_length τ _
    have hiout : i < (J ++ J).length := by omega
    have hrl : ((simMatrix τ (J ++ J)).getD i []).length = 2 * B := by
      rw [simMatrix_row_length τ _ i hiout, houtlen]
    apply List.sum_pos
    · intro x hx
      exact simMatrix_row_pos τ (J ++ J) i hiout x
        ((List.eraseIdx_sublist _ i).subset hx)
    · have hlen2 :
          (((simMatrix τ (J ++ J)).getD i []).eraseIdx i).length = 2 * B - 1 := by
        rw [List.length_eraseIdx, hrl, if_pos (by omega : i < 2 * B)]
      intro hcon
      rw [hcon] at hlen2
      simp at hlen2
      omega
  · have hmods2 : ∀ p ∈ mods, (p.2).length = B := by
      intro p hp; rw [hmods p hp]; exact hJ
    have hlen := accumLoss_length τ mods J B hJ hmods2
    have hpos : ∀ x ∈ accumLoss τ mods J, 0 < x := by
      intro x hx
      rw [List.mem_iff_getElem] at hx
      obtain ⟨i, hilen, rfl⟩ := hx
      have hi2B : i < 2 * B := by omega
      rw [← List.getD_eq_getElem _ 0 hilen,
        accumLoss_getD τ mods J B hJ hmods2 i hi2B]
      apply List.sum_pos
      · intro y hy
        simp only [List.mem_map] at hy
        obtain ⟨p, hp, rfl⟩ := hy
        rw [hmods p hp]
        exact lossJointMod_self_pos τ J B hJ hB i hi2B
      · simpa using hne
    have hsum : 0 < (accumLoss τ mods J).sum := by
      apply List.sum_pos _ hpos
      intro hcon
      rw [hcon] at hlen
      simp at hlen
      omega
    rw [infonce, meanL]
    apply div_pos hsum
    rw [hlen]
    have : (0 : ℝ) < ((2 * B : Nat) : ℝ) := by
      have : 0 < 2 * B := by omega
      exact_mod_cast this
    exact_mod_cast this

theorem computeModalitiesZ_error (model : GMC) :
    ∀ l : List (String × PyVal),
      (∃ p ∈ l, model.networks.lookup p.1 = none) →
      ∃ m, model.networks.lookup m = none ∧
        computeModalitiesZ model l = .error (.keyError m) := by
  intro l
  induction l with
  | nil =>
    intro h
    obtain ⟨p, hp, _⟩ := h
    simp at hp
  | cons q rest ih =>
    intro h
    obtain ⟨qm, qx⟩ := q
    obtain ⟨p, hp, hnone⟩ := h
    cases hl : model.networks.lookup qm with
    | none =>
      refine ⟨qm, hl, ?_⟩
      simp only [computeModalitiesZ, lookupModule, hl]
      rfl
    | some net =>
      have hrest : ∃ p ∈ rest, model.networks.lookup p.1 = none := by
        rcases List.mem_cons.1 hp with hh | hh
        · subst hh; rw [hl] at hnone; cases hnone
        · exact ⟨p, hh, hnone⟩
      obtain ⟨m, hm, hcr⟩ := ih hrest
      refine ⟨m, hm, ?_⟩
      simp only [computeModalitiesZ, lookupModule, hl, hcr]
      rfl

/-- Claim C1 (evidence of the defect): the joint-encoder dimension check
of set_joint_encoder is inverted in the source — it REJECTS a joint
encoder whose latent_dim equals common_dim (both 4 here) with a
ConfigurationError, and ACCEPTS one whose latent_dim (3) differs from
common_dim (4), the exact opposite of the claimed behaviour. -/
theorem set_joint_encoder_check_inverted :
    set_joint_encoder 4 (recordJointEncoder 4) = .error .configurationError ∧
    set_joint_encoder 4 (recordJointEncoder 3) = .ok (recordJointEncoder 3) :=
  ⟨rfl, rfl⟩

/-- Claim C4 (evidence of the defect): a fully consistent input — one
modality encoder with latent_dim = common_dim = 4, a shared head with
latent_dim = embedding_dim = 2, and a joint encoder with
latent_dim = common_dim = 4 — is rejected by construction with a
ConfigurationError although none of the claimed failure conditions holds:
the inverted joint-encoder check fires exactly when the dimensions
match. -/
theorem construction_rejects_consistent_config :
    GMC.init cfgFix [("m0", recordEncoder 4)] (recordJointEncoder 4)
      (recordEncoder 2) = .error .configurationError :=
  rfl

/-- Claim C2 (evidence of the defect): with identity-recording encoders,
encode on the registered modality m0 passes the FULL inputs.data mapping
to the modality encoder — the value observed inside the result is the
dict, which is not the single modality tensor inputs.data[m0] that the
claim requires the encoder to receive. -/
theorem encode_modality_receives_full_mapping :
    GMC.encode modelFix inputsFix "m0" =
      .ok (.modelOutput (.modelOutput (.dict [("m0", .tensor [2, 3])]))) ∧
    PyVal.dict [("m0", .tensor [2, 3])] ≠ PyVal.tensor [2, 3] :=
  ⟨rfl, by simp⟩

/-- Claim C5 (evidence of the defect): encode(inputs, "all") does route
through the joint encoder and then the shared head, but the source omits
the final .embedding extraction — the embedding field of the returned
ModelOutput is the shared head's whole ModelOutput (which wraps the
(2, 5) tensor), not a (batch_size, latent_dim) tensor. -/
theorem encode_all_embedding_not_tensor :
    GMC.encode modelShape inputsFix "all" =
      .ok (.modelOutput (.modelOutput (.tensor [2, 5]))) ∧
    (PyVal.modelOutput (.tensor [2, 5])).isTensor = false :=
  ⟨rfl, rfl⟩

/-- Claim C6: encode fails exactly when cond_mod is neither the literal
"all" nor a registered modality name, and in that case the result is the
bare InvalidModalityError — an expression that mentions no encoder, so the
error is raised immediately without invoking any encoder; encode is a pure
function of the model and inputs, so no state is mutated. -/
theorem encode_error_iff_unknown_cond_mod (model : GMC)
    (inputs : MultimodalBaseDataset) (cond_mod : String) :
    ((∃ e, GMC.encode model inputs cond_mod = .error e) ↔
      (cond_mod ≠ "all" ∧ model.networks.lookup cond_mod = none)) ∧
    (cond_mod ≠ "all" → model.networks.lookup cond_mod = none →
      GMC.encode model inputs cond_mod = .error .invalidModalityError) := by
  constructor
  · constructor
    · intro h
      obtain ⟨e, he⟩ := h
      by_cases hall : cond_mod = "all"
      · rw [GMC.encode, if_pos hall] at he
        cases he
      · rw [GMC.encode, if_neg hall] at he
        cases hl : model.networks.lookup cond_mod with
        | some net => rw [hl] at he; cases he
        | none => exact ⟨hall, rfl⟩
    · intro h
      obtain ⟨h1, h2⟩ := h
      refine ⟨.invalidModalityError, ?_⟩
      rw [GMC.encode, if_neg h1, h2]
  · intro h1 h2
    rw [GMC.encode, if_neg h1, h2]

/-- Claim C10: when the input batch contains a modality name that is not
registered among the model's networks, forward fails with the untyped
key-lookup error (keyError, from indexing self.networks) — and it does so
for EVERY loss function that could have been applied, i.e. before any loss
is computed; the error is not one of the typed errors of the
specification's taxonomy. -/
theorem forward_unregistered_modality_keyerror (model : GMC)
    (inputs : MultimodalBaseDataset)
    (h : ∃ p ∈ inputs.data, model.networks.lookup p.1 = none) :
    ∃ m, model.networks.lookup m = none ∧
      ∀ infonceF, model.forwardWith inputs infonceF = .error (.keyError m) := by
  obtain ⟨m, hm, hc⟩ := computeModalitiesZ_error model inputs.data h
  refine ⟨m, hm, fun infonceF => ?_⟩
  simp only [GMC.forwardWith, hc]
  rfl

/-- Claim C3 fails as stated: at the concrete batch B = 2, latent
dimension 1, temperature 1, with the two modalities m0 and m1 both embedded
as the zero matrix (equal to the joint embedding), each per-row loss is
log 3, the accumulated vector is [2·log 3, 2·log 3, 2·log 3, 2·log 3], its
grand sum is 8·log 3, and infonce returns 2·log 3 — the sum divided by
2·B = 4 — which differs from the sum divided by
2·B·n_modalities = (2·2)·2 = 8 claimed by the specification. -/
theorem infonce_not_mean_over_2B_times_n :
    infonce 1 [("m0", [[(0 : ℝ)], [0]]), ("m1", [[(0 : ℝ)], [0]])]
        [[(0 : ℝ)], [0]] ≠
      (accumLoss 1 [("m0", [[(0 : ℝ)], [0]]), ("m1", [[(0 : ℝ)], [0]])]
        [[(0 : ℝ)], [0]]).sum / (((2 * 2) * 2 : Nat) : ℝ) := by
  have h3 : 0 < Real.log 3 := Real.log_pos (by norm_num)
  norm_num [infonce, meanL, accumLoss, lossJointMod, posSim, simMatrix,
    removeDiag, removeDiagAux, dotL, List.eraseIdx, Real.exp_zero,
    Real.log_div, Real.log_inv, List.replicate]
  intro h
  nlinarith [h3]

/-- Witness for Claim C3 (amended) at B = 2, one zero-matrix modality. -/
theorem infonce_accumulates_witness :
    (∀ i, i < 2 * 2 →
      (accumLoss 1 [("m0", [[(0 : ℝ)], [0]])] [[(0 : ℝ)], [0]]).getD i 0 =
        ([("m0", [[(0 : ℝ)], [0]])].map
          (fun p => (lossJointMod 1 [[(0 : ℝ)], [0]] p.2).getD i 0)).sum) ∧
    infonce 1 [("m0", [[(0 : ℝ)], [0]])] [[(0 : ℝ)], [0]] =
      (accumLoss 1 [("m0", [[(0 : ℝ)], [0]])] [[(0 : ℝ)], [0]]).sum /
        ((2 * 2 : Nat) : ℝ) :=
  infonce_accumulates_and_averages_over_2B 1 [("m0", [[(0 : ℝ)], [0]])]
    [[(0 : ℝ)], [0]] 2 (by norm_num) rfl (by norm_num)
    (by intro p hp; rcases List.mem_singleton.1 hp with rfl; rfl)

/-- Witness for Claim C6: on the concrete model, encoding with the
unknown selector zzz raises InvalidModalityError. -/
theorem encode_error_witness :
    GMC.encode modelFix inputsFix "zzz" = .error .invalidModalityError :=
  (encode_error_iff_unknown_cond_mod modelFix inputsFix "zzz").2
    (by decide) rfl

/-- Witness for Claim C7 at B = 2 with zero embeddings: the masked
similarity matrix has 2·2 rows. -/
theorem masked_similarity_witness :
    (removeDiag (simMatrix 1 ([[(0 : ℝ)], [0]] ++ [[(0 : ℝ)], [0]]))).length
      = 2 * 2 :=
  (masked_similarity_shape_and_diagonal_exclusion 1 [[(0 : ℝ)], [0]]
    [[(0 : ℝ)], [0]] 2 (by norm_num) rfl rfl).1

/-- Witness for Claim C8 at B = 2, one modality. -/
theorem infonce_scalar_witness :
    (accumLoss 1 [("m0", [[(0 : ℝ)], [0]])] [[(0 : ℝ)], [0]]).length = 2 * 2 ∧
    infonce 1 [("m0", [[(0 : ℝ)], [0]])] [[(0 : ℝ)], [0]] =
      (accumLoss 1 [("m0", [[(0 : ℝ)], [0]])] [[(0 : ℝ)], [0]]).sum /
        ((2 * 2 : Nat) : ℝ) :=
  infonce_returns_scalar 1 [("m0", [[(0 : ℝ)], [0]])] [[(0 : ℝ)], [0]] 2
    (by norm_num) rfl (by norm_num)
    (by intro p hp; rcases List.mem_singleton.1 hp with rfl; rfl)

/-- Witness for Claim C9 at B = 2, temperature 1, the modality embedding
equal to the zero joint embedding. -/
theorem infonce_positive_witness :
    (∀ r ∈ removeDiag (simMatrix 1 ([[(0 : ℝ)], [0]] ++ [[(0 : ℝ)], [0]])),
      0 < r.sum) ∧
    0 < infonce 1 [("m0", [[(0 : ℝ)], [0]])] [[(0 : ℝ)], [0]] :=
  infonce_positive_on_identical_embeddings 1 [("m0", [[(0 : ℝ)], [0]])]
    [[(0 : ℝ)], [0]] 2 (by norm_num) rfl (by norm_num) (by simp)
    (by intro p hp; rcases List.mem_singleton.1 hp with rfl; rfl)

/-- Witness for Claim C10: the batch holds modality b, which is absent
from the model networks, so forward fails with keyError regardless of the
loss function. -/
theorem forward_unregistered_witness :
    ∃ m, modelFix.networks.lookup m = none ∧
      ∀ infonceF, modelFix.forwardWith inputsMissing infonceF =
        .error (.keyError m) :=
  forward_unregistered_modality_keyerror modelFix inputsMissing
    ⟨("b", .tensor [2, 3]), by simp [inputsMissing], rfl⟩

end GMCModel
